import Mathlib

/-!
Verification of the CU lookup tool (lookupstreamlit.py).

The development shallowly embeds the data-handling core of the script:
the load-time identifier normalization, the recursive breakdown
expansion, the two-tier stock-code description resolver, and the
listings search filter.  DataFrame rows become structures whose
nullable columns are Option-valued; pandas NaN is Option.none.  The
unbounded Python recursion of recursive_breakdown is embedded with an
explicit fuel parameter: a none result means the Python code would
still be recursing (and ultimately hit the interpreter recursion
limit), a some result is the value the Python code returns.
-/

/-- One row of the breakdowns CSV: columns CU, CHILD CU, STOCK CODE, QTY.
Nullable cells are Option-valued (none embeds pandas NaN). -/
structure BreakRow where
  cu : Option String
  childCu : Option String
  stockCode : Option String
  qty : Option Int
  deriving DecidableEq

/-- One row of the primary catalog sc_desc: columns Stock Code1,
Description, UOI, Price.  uoi and price are none when the column is
absent, matching the row.get(col, default) accesses in the source. -/
structure DescRow where
  stockCode1 : Option String
  description : String
  uoi : Option String
  price : Option String
  deriving DecidableEq

/-- One row of the backup catalog backup_desc: columns SC_backup,
backupDescrip. -/
structure BackupRow where
  scBackup : Option String
  backupDescrip : String
  deriving DecidableEq

/-- The dictionary returned by get_sc_description. -/
structure DescInfo where
  description : String
  uoi : String
  price : String
  deriving DecidableEq

/-- Embeds the Python expression str(x).lstrip("0"): drop every leading
zero character. -/
def lstrip0 (s : String) : String := ⟨s.data.dropWhile (fun c => c == '0')⟩

/-- Whether a string begins with the character zero. -/
def beginsWith0 (s : String) : Bool :=
  match s.data with
  | [] => false
  | c :: _ => c == '0'

/-- Embeds the test val.lower().startswith("sc000") from the source:
the first five characters, lowercased, are s, c, 0, 0, 0. -/
def sc000Check (s : String) : Bool :=
  match s.data with
  | c1 :: c2 :: c3 :: c4 :: c5 :: _ =>
    c1.toLower == 's' && c2.toLower == 'c' &&
    c3.toLower == '0' && c4.toLower == '0' && c5.toLower == '0'
  | _ => false

/-- Embeds the source function of the same name: if the value starts
(case insensitively) with SC000, drop the first five characters. -/
def remove_sc000_prefix (s : String) : String :=
  if sc000Check s then ⟨s.data.drop 5⟩ else s

/-- The combined identifier normalization the design document speaks
about: the leading-zero strip followed by the SC000 strip (the source
applies the two pieces to different columns; normId is their
composition on a single identifier). -/
def normId (s : String) : String := remove_sc000_prefix (lstrip0 s)

/-- The load_data cleaning of one breakdowns row: leading zeros are
stripped from STOCK CODE, and the SC000 prefix from CU and CHILD CU.
NaN cells (none) are left alone, as in the source lambdas. -/
def cleanBreakRow (r : BreakRow) : BreakRow :=
  { cu := r.cu.map remove_sc000_prefix
    childCu := r.childCu.map remove_sc000_prefix
    stockCode := r.stockCode.map lstrip0
    qty := r.qty }

/-- The load_data cleaning of one primary-catalog row: leading zeros
are stripped from Stock Code1. -/
def cleanDescRow (r : DescRow) : DescRow :=
  { r with stockCode1 := r.stockCode1.map lstrip0 }

/-- Load-time cleaning of the whole breakdowns relation. -/
def load_breakdowns (raw : List BreakRow) : List BreakRow :=
  raw.map cleanBreakRow

/-- Load-time cleaning of the whole primary catalog. -/
def load_sc_desc (raw : List DescRow) : List DescRow :=
  raw.map cleanDescRow

/-- Sequences the per-row contributions of the expansion loop: the
Python loop concatenates each row contribution onto the accumulator in
order; a none contribution (an aborted recursion) aborts the whole
call. -/
def collectContribs : List (Option (List BreakRow)) → Option (List BreakRow)
  | [] => some []
  | none :: _ => none
  | some d :: rest => (collectContribs rest).map (fun r => d ++ r)

/-- Embeds recursive_breakdown from the source.  fuel bounds the
recursion depth: the Python original recurses without any guard, so a
result of none means the Python call is still descending at that depth
(on cyclic data it never stops).  For each row whose CU equals the
argument, in stored order: a row with a stock code is itself the
contribution; a row with no stock code but a child CU contributes the
recursive expansion of the child; a row with neither contributes
nothing. -/
def recursive_breakdown (bd : List BreakRow) : Nat → String → Option (List BreakRow)
  | 0, _ => none
  | fuel + 1, cu =>
    let subset := bd.filter fun e => e.cu == some cu
    if subset.isEmpty then some []
    else collectContribs (subset.map fun e =>
      match e.stockCode, e.childCu with
      | some _, _ => some [e]
      | none, some c => recursive_breakdown bd fuel c
      | none, none => some [])

/-- The contribution of one breakdowns row inside the expansion loop. -/
def edgeContrib (bd : List BreakRow) (fuel : Nat) (e : BreakRow) : Option (List BreakRow) :=
  match e.stockCode, e.childCu with
  | some _, _ => some [e]
  | none, some c => recursive_breakdown bd fuel c
  | none, none => some []

/-- Embeds get_sc_description from the source: first matching row of
the primary catalog (with UOI and Price defaulting to the empty string
when the column is absent), else first matching row of the backup
catalog with empty UOI and Price, else the sentinel record. -/
def get_sc_description (sc_desc : List DescRow) (backup_desc : List BackupRow)
    (sc : String) : DescInfo :=
  match sc_desc.find? (fun r => r.stockCode1 == some sc) with
  | some r => { description := r.description, uoi := r.uoi.getD "", price := r.price.getD "" }
  | none =>
    match backup_desc.find? (fun r => r.scBackup == some sc) with
    | some r => { description := r.backupDescrip, uoi := "", price := "" }
    | none => { description := "No Description Found", uoi := "", price := "" }

/-- The characters the re module documents as special in a pattern
(outside character classes): dot, caret, dollar, star, plus, question
mark, backslash, square brackets, parentheses, vertical bar and the
two curly braces. -/
def isRegexMeta (c : Char) : Bool :=
  c == '.' || c == '^' || c == '$' || c == '*' || c == '+' || c == '?' ||
  c == '\\' || c == '[' || c == ']' || c == '(' || c == ')' || c == '|' ||
  c == '\x7b' || c == '\x7d'

/-- The regular-expression fragment this embedding models: every
character of the query is either an ordinary literal or the dot
wildcard.  Such patterns are always valid regexes and involve no
quantifier, class, group, anchor or escape, so their re.search
behavior is plain sliding-window comparison.  Queries outside the
fragment are not modeled at all (see search?). -/
def inRegexFrag (q : String) : Bool :=
  q.data.all fun c => !(isRegexMeta c) || c == '.'

/-- Whether one pattern character of an in-fragment query matches one
character of a cell, as re.search with IGNORECASE does: the dot
matches any character except a newline, an ordinary character matches
case-insensitively.  Only meaningful for in-fragment queries. -/
def patCharMatches (p c : Char) : Bool :=
  (p == '.' && !(c == '\n')) || p.toLower == c.toLower

/-- The in-fragment query matches at the start of the cell text. -/
def matchHere : List Char → List Char → Bool
  | [], _ => true
  | _ :: _, [] => false
  | p :: ps, c :: cs => patCharMatches p c && matchHere ps cs

/-- re.search of an in-fragment query somewhere inside the cell text:
the anchored match attempted at every suffix.  Only meaningful for
in-fragment queries. -/
def reSearch : List Char → List Char → Bool
  | pat, [] => matchHere pat []
  | pat, c :: cs => matchHere pat (c :: cs) || reSearch pat cs

/-- One cell of a listings row matches an in-fragment search query. -/
def cellMatches (q cell : String) : Bool := reSearch q.data cell.data

/-- row.astype(str).str.contains(query, case=False).any() from the
search handler, for an in-fragment query: some cell of the row
matches. -/
def rowMatches (q : String) (row : List String) : Bool :=
  row.any fun cell => cellMatches q cell

/-- The rows kept by the search handler for an in-fragment query, in
stored order. -/
def search (listings : List (List String)) (q : String) : List (List String) :=
  listings.filter (rowMatches q)

/-- Embeds the search handler partially: for a query inside the
modeled literal-plus-dot fragment, the listings rows it keeps; for any
other query (one holding a quantifier, class, group, anchor, escape or
stray brace) the embedding makes no statement, returning none — the
re.search behavior of such queries, including the re.error raised by
invalid patterns, is outside this model. -/
def search? (listings : List (List String)) (q : String) : Option (List (List String)) :=
  if inRegexFrag q then some (search listings q) else none

/-- The specification wording of matching, for comparison with the
code: the query text is a case-insensitive contiguous substring of the
cell text. -/
def specContainsCI (cell q : String) : Bool :=
  decide ((q.data.map Char.toLower) <:+: (cell.data.map Char.toLower))

/-- One recursion step of the expansion: parent p has a breakdowns row
with no stock code and child c, the only shape of row that makes
recursive_breakdown descend. -/
def Step (bd : List BreakRow) (p c : String) : Prop :=
  ∃ e, e ∈ bd ∧ e.cu = some p ∧ e.stockCode = none ∧ e.childCu = some c

/-- The breakdown relation has no parent-to-child cycle among the rows
that cause recursion. -/
def NoCycle (bd : List BreakRow) : Prop :=
  ∀ x, ¬ Relation.TransGen (Step bd) x x

/-- The parents that own at least one recursing row; the recursion
depth of the expansion is bounded by how many distinct ones exist. -/
def steppers (bd : List BreakRow) : List String :=
  (bd.filter fun e => e.stockCode == none && e.childCu.isSome).filterMap fun e => e.cu

/-- The breakdown relation of the end-to-end ordering scenario of the
design document: CU 10 breaks into CU 20, which owns stock codes 500
(qty 3) and 501 (qty 1). -/
def bd10 : List BreakRow :=
  [⟨some "10", some "20", none, none⟩,
   ⟨some "20", none, some "500", some 3⟩,
   ⟨some "20", none, some "501", some 1⟩]

/-- The cyclic breakdown relation of the cycle scenario: A breaks into
B and B breaks into A, neither row carrying a stock code. -/
def cycBd : List BreakRow :=
  [⟨some "A", some "B", none, none⟩, ⟨some "B", some "A", none, none⟩]

/-- A primary-catalog row whose stored attributes happen to coincide
with the not-found sentinel values. -/
def pathoDesc : DescRow := ⟨some "1", "No Description Found", none, none⟩

/-- An ordinary primary-catalog row. -/
def primRow : DescRow := ⟨some "7", "Bolt", some "EA", some "1.50"⟩

/-- An ordinary backup-catalog row. -/
def backRow : BackupRow := ⟨some "8", "Bracket"⟩

/-- First of two primary-catalog rows sharing the identifier 5. -/
def dup1 : DescRow := ⟨some "5", "first", none, none⟩

/-- Second of two primary-catalog rows sharing the identifier 5. -/
def dup2 : DescRow := ⟨some "5", "second", some "EA", some "9"⟩

/-- A list without duplicates whose members all come from L is no
longer than the deduplication of L. -/
lemma nodup_subset_dedup_length {l L : List String} (h1 : l.Nodup)
    (h2 : ∀ v ∈ l, v ∈ L) : l.length ≤ L.dedup.length := by
  calc l.length = l.toFinset.card := (List.toFinset_card_of_nodup h1).symm
    _ ≤ L.dedup.toFinset.card := by
        apply Finset.card_le_card
        intro v hv
        exact List.mem_toFinset.mpr (List.mem_dedup.mpr (h2 v (List.mem_toFinset.mp hv)))
    _ ≤ L.dedup.length := L.dedup.toFinset_card_le

/-- find? keeps the first satisfying element: rows after it are never
consulted. -/
lemma find?_append_first {α : Type} (p : α → Bool) (l1 l2 : List α) (a : α)
    (h1 : ∀ x ∈ l1, p x = false) (h2 : p a = true) :
    (l1 ++ a :: l2).find? p = some a := by
  induction l1 with
  | nil => simp [List.find?_cons_of_pos _ h2]
  | cons x t ih =>
    have hx := h1 x (List.mem_cons_self x t)
    rw [List.cons_append, List.find?_cons_of_neg _ (by simp [hx])]
    exact ih fun y hy => h1 y (List.mem_cons_of_mem x hy)

/-- dropWhile is idempotent. -/
lemma dropWhile_dropWhile (p : Char → Bool) (l : List Char) :
    (l.dropWhile p).dropWhile p = l.dropWhile p := by
  induction l with
  | nil => rfl
  | cons c t ih =>
    by_cases hp : p c
    · simp [List.dropWhile_cons, hp, ih]
    · simp [List.dropWhile_cons, hp]

/-- The leading-zero strip is idempotent. -/
lemma lstrip0_idem (s : String) : lstrip0 (lstrip0 s) = lstrip0 s := by
  unfold lstrip0
  exact congrArg String.mk (dropWhile_dropWhile _ s.data)

/-- After the leading-zero strip a string never begins with zero. -/
lemma lstrip0_not_begins0 (s : String) : beginsWith0 (lstrip0 s) = false := by
  unfold lstrip0 beginsWith0
  induction s.data with
  | nil => rfl
  | cons c t ih =>
    by_cases hp : (c == '0') = true
    · simpa [List.dropWhile_cons, hp] using ih
    · simp only [List.dropWhile_cons]
      rw [if_neg (by simpa using hp)]
      simpa using hp

/-- The leading-zero strip fixes a string that does not begin with
zero. -/
lemma lstrip0_fix {s : String} (h : beginsWith0 s = false) : lstrip0 s = s := by
  obtain ⟨l⟩ := s
  unfold lstrip0
  cases l with
  | nil => rfl
  | cons c t =>
    unfold beginsWith0 at h
    simp only at h
    simp [List.dropWhile_cons, h]

/-- The SC000 strip fixes a string that fails the SC000 test. -/
lemma sc000_fix {s : String} (h : sc000Check s = false) : remove_sc000_prefix s = s := by
  unfold remove_sc000_prefix
  simp [h]

/-- Unfolding of one successor-fuel step of the expansion: the filter
subset of rows of the given CU, in stored order, each mapped to its
contribution, all concatenated. -/
lemma rb_succ (bd : List BreakRow) (fuel : Nat) (cu : String) :
    recursive_breakdown bd (fuel + 1) cu =
      if (bd.filter fun e => e.cu == some cu).isEmpty then some []
      else collectContribs ((bd.filter fun e => e.cu == some cu).map (edgeContrib bd fuel)) := rfl

/-- Main induction for termination of the expansion on acyclic data:
visited carries the ids on the active recursion path, each a stepping
parent and a strict ancestor of the current CU; since they are distinct
the path cannot outgrow the number of distinct stepping parents, so
that much fuel plus one suffices and every returned row is a terminal
row of the relation. -/
lemma rb_terminates_aux (bd : List BreakRow) :
    ∀ (fuel : Nat) (cu : String) (visited : List String),
    NoCycle bd → visited.Nodup → (∀ v ∈ visited, v ∈ steppers bd) →
    (∀ v ∈ visited, Relation.TransGen (Step bd) v cu) →
    (steppers bd).dedup.length + 1 ≤ fuel + visited.length →
    ∃ r, recursive_breakdown bd fuel cu = some r ∧ ∀ e ∈ r, e ∈ bd ∧ e.stockCode.isSome := by
  intro fuel
  induction fuel with
  | zero =>
    intro cu visited hnc hnd hsub hanc hbound
    exact absurd hbound (by
      have := nodup_subset_dedup_length hnd hsub
      omega)
  | succ f ih =>
    intro cu visited hnc hnd hsub hanc hbound
    rw [rb_succ]
    by_cases hemp : (bd.filter fun e => e.cu == some cu).isEmpty
    · rw [if_pos hemp]
      exact ⟨[], rfl, by simp⟩
    · rw [if_neg hemp]
      have key : ∀ rows : List BreakRow, (∀ e ∈ rows, e ∈ bd ∧ e.cu = some cu) →
          ∃ r, collectContribs (rows.map (edgeContrib bd f)) = some r ∧
            ∀ e ∈ r, e ∈ bd ∧ e.stockCode.isSome := by
        intro rows
        induction rows with
        | nil => intro _; exact ⟨[], rfl, by simp⟩
        | cons e rest ihr =>
          intro hmem
          obtain ⟨r2, hr2, hr2p⟩ := ihr fun x hx => hmem x (List.mem_cons_of_mem e hx)
          have hebd : e ∈ bd := (hmem e (List.mem_cons_self e rest)).1
          have hecu : e.cu = some cu := (hmem e (List.mem_cons_self e rest)).2
          cases hstock : e.stockCode with
          | some s =>
            refine ⟨e :: r2, ?_, ?_⟩
            · simp only [List.map_cons]
              rw [show edgeContrib bd f e = some [e] by unfold edgeContrib; rw [hstock]]
              simp [collectContribs, hr2]
            · intro x hx
              rcases List.mem_cons.mp hx with h | h
              · subst h; exact ⟨hebd, by simp [hstock]⟩
              · exact hr2p x h
          | none =>
            cases hchild : e.childCu with
            | none =>
              refine ⟨r2, ?_, hr2p⟩
              simp only [List.map_cons]
              rw [show edgeContrib bd f e = some [] by unfold edgeContrib; rw [hstock, hchild]]
              simp [collectContribs, hr2]
            | some c =>
              have hstep : Step bd cu c := ⟨e, hebd, hecu, hstock, hchild⟩
              have hnotin : cu ∉ visited := fun hin => hnc cu (hanc cu hin)
              have hcust : cu ∈ steppers bd := by
                unfold steppers
                refine List.mem_filterMap.mpr ⟨e, List.mem_filter.mpr ⟨hebd, ?_⟩, hecu⟩
                simp [hstock, hchild]
              obtain ⟨d, hd, hdp⟩ := ih c (cu :: visited) hnc
                (List.nodup_cons.mpr ⟨hnotin, hnd⟩)
                (by
                  intro v hv
                  rcases List.mem_cons.mp hv with h | h
                  · subst h; exact hcust
                  · exact hsub v h)
                (by
                  intro v hv
                  rcases List.mem_cons.mp hv with h | h
                  · subst h; exact Relation.TransGen.single hstep
                  · exact Relation.TransGen.tail (hanc v h) hstep)
                (by simp only [List.length_cons]; omega)
              refine ⟨d ++ r2, ?_, ?_⟩
              · simp only [List.map_cons]
                rw [show edgeContrib bd f e = recursive_breakdown bd f c by
                  unfold edgeContrib; rw [hstock, hchild]]
                rw [hd]
                simp [collectContribs, hr2]
              · intro x hx
                rcases List.mem_append.mp hx with h | h
                · exact hdp x h
                · exact hr2p x h
      apply key
      intro e he
      have h2 := List.mem_filter.mp he
      exact ⟨h2.1, by simpa using h2.2⟩

/-- The empty query matches everywhere. -/
lemma reSearch_nil_pat : ∀ s : List Char, reSearch [] s = true := by
  intro s
  cases s <;> simp [reSearch, matchHere]

/-- For a query without the dot wildcard, anchored matching is exactly
case-folded prefix comparison. -/
lemma matchHere_no_dot : ∀ (pat s : List Char), (pat.all fun c => !(c == '.')) = true →
    matchHere pat s = (pat.map Char.toLower).isPrefixOf (s.map Char.toLower) := by
  intro pat
  induction pat with
  | nil =>
    intro s _
    cases s <;> simp [matchHere, List.isPrefixOf]
  | cons p ps ih =>
    intro s hall
    simp only [List.all_cons, Bool.and_eq_true] at hall
    have hp : (p == '.') = false := by simpa using hall.1
    cases s with
    | nil => simp [matchHere, List.isPrefixOf]
    | cons c cs =>
      simp [matchHere, patCharMatches, hp, List.isPrefixOf_cons₂, ih cs hall.2]

/-- For a query without the dot wildcard, the regex search is exactly
case-folded contiguous-substring containment. -/
lemma reSearch_no_dot (pat : List Char) (hall : (pat.all fun c => !(c == '.')) = true) :
    ∀ s : List Char, reSearch pat s =
      decide ((pat.map Char.toLower) <:+: (s.map Char.toLower)) := by
  intro s
  induction s with
  | nil =>
    cases pat with
    | nil => simp [reSearch, matchHere]
    | cons p ps => simp [reSearch, matchHere]
  | cons c cs ih =>
    simp only [reSearch]
    rw [matchHere_no_dot pat (c :: cs) hall, ih]
    rw [Bool.eq_iff_iff]
    simp [List.infix_cons_iff]

/-- A row with at least one cell matches the empty query. -/
lemma rowMatches_empty_q {row : List String} (h : row ≠ []) : rowMatches "" row = true := by
  cases row with
  | nil => exact absurd rfl h
  | cons c t =>
    have hc : cellMatches "" c = true := reSearch_nil_pat c.data
    simp [rowMatches, hc]

/-- C1: the code, not the requirement.  On the cyclic relation with
rows A to B and B to A, expand of A never returns at any recursion
depth: for every fuel the embedded recursive_breakdown is still
descending (the Python original recurses unboundedly until the
interpreter recursion limit aborts it).  No CyclicHierarchy error
exists anywhere in the source, so the required failure mode is absent. -/
theorem expand_cycle_diverges : ∀ fuel : Nat,
    recursive_breakdown cycBd fuel "A" = none ∧ recursive_breakdown cycBd fuel "B" = none := by
  intro fuel
  induction fuel with
  | zero => exact ⟨rfl, rfl⟩
  | succ f ih =>
    refine ⟨?_, ?_⟩
    · calc recursive_breakdown cycBd (f + 1) "A"
          = collectContribs [recursive_breakdown cycBd f "B"] := rfl
        _ = collectContribs [none] := by rw [ih.2]
        _ = none := rfl
    · calc recursive_breakdown cycBd (f + 1) "B"
          = collectContribs [recursive_breakdown cycBd f "A"] := rfl
        _ = collectContribs [none] := by rw [ih.1]
        _ = none := rfl

/-- C2: on a breakdown relation with no parent-to-child cycle among
the recursing rows (a hypothesis weaker than full acyclicity, so the
claim for every acyclic relation follows), the expansion of any root
returns at fuel one beyond the number of distinct recursing parents,
and every returned row is a row of the relation carrying a non-null
stock code. -/
theorem expand_acyclic_terminates (bd : List BreakRow) (root : String) (hacyc : NoCycle bd) :
    ∃ r, recursive_breakdown bd ((steppers bd).dedup.length + 1) root = some r ∧
      ∀ e ∈ r, e ∈ bd ∧ e.stockCode.isSome :=
  rb_terminates_aux bd ((steppers bd).dedup.length + 1) root [] hacyc List.nodup_nil
    (by simp) (by simp) (by simp)

/-- C2 witness: a concrete acyclic relation (one terminal row) where
the expansion of X returns. -/
theorem expand_acyclic_terminates_witness :
    ∃ r, recursive_breakdown [⟨some "X", none, some "9", none⟩]
        ((steppers [⟨some "X", none, some "9", none⟩]).dedup.length + 1) "X" = some r ∧
      ∀ e ∈ r, e ∈ [(⟨some "X", none, some "9", none⟩ : BreakRow)] ∧ e.stockCode.isSome :=
  expand_acyclic_terminates _ "X" (by
    have hstep : ∀ a b : String, ¬ Step [(⟨some "X", none, some "9", none⟩ : BreakRow)] a b := by
      rintro a b ⟨e, he, hcu, hst, hch⟩
      rw [List.mem_singleton] at he
      subst he
      exact Option.noConfusion hst
    have hgen : ∀ a b : String,
        ¬ Relation.TransGen (Step [(⟨some "X", none, some "9", none⟩ : BreakRow)]) a b := by
      intro a b hab
      induction hab with
      | single h => exact hstep _ _ h
      | tail _ h _ => exact hstep _ _ h
    intro x hx
    exact hgen x x hx)

/-- C3 counterexample: a primary-catalog row whose attributes equal the
sentinel values makes the resolver return the sentinel triple although
the identifier is present in the primary catalog, so the only-if
direction of the claimed equivalence fails. -/
theorem resolve_sentinel_iff_cex :
    get_sc_description [pathoDesc] [] "1" = ⟨"No Description Found", "", ""⟩ ∧
    pathoDesc ∈ [pathoDesc] ∧ pathoDesc.stockCode1 = some "1" := by decide

/-- C3 amended: the resolver returns the first matching primary row
(unit and price defaulting to the empty string) whenever the id occurs
in the primary catalog, whatever the backup catalog holds; on a primary
miss it returns the first matching backup description with empty unit
and price; and when the id is absent from both catalogs it returns the
sentinel (the converse of the sentinel clause does not hold, see the
counterexample).  The first conjunct ties presence of the id to the
find? probe used by the others. -/
theorem resolve_two_tier_spec (p : List DescRow) (b : List BackupRow) (sc : String) :
    ((p.find? fun r => r.stockCode1 == some sc).isSome ↔ ∃ r ∈ p, r.stockCode1 = some sc) ∧
    (∀ r, (p.find? fun r0 => r0.stockCode1 == some sc) = some r →
      get_sc_description p b sc = ⟨r.description, r.uoi.getD "", r.price.getD ""⟩) ∧
    ((p.find? fun r0 => r0.stockCode1 == some sc) = none →
      ∀ r, (b.find? fun r0 => r0.scBackup == some sc) = some r →
      get_sc_description p b sc = ⟨r.backupDescrip, "", ""⟩) ∧
    ((p.find? fun r0 => r0.stockCode1 == some sc) = none →
      (b.find? fun r0 => r0.scBackup == some sc) = none →
      get_sc_description p b sc = ⟨"No Description Found", "", ""⟩) := by
  refine ⟨?_, ?_, ?_, ?_⟩
  · simp [List.find?_isSome]
  · intro r hr
    simp [get_sc_description, hr]
  · intro hp r hr
    simp [get_sc_description, hp, hr]
  · intro hp hb
    simp [get_sc_description, hp, hb]

/-- C3 witness: the three tiers observed on concrete catalogs. -/
theorem resolve_two_tier_spec_witness :
    get_sc_description [primRow] [backRow] "7" = ⟨"Bolt", "EA", "1.50"⟩ ∧
    get_sc_description [primRow] [backRow] "8" = ⟨"Bracket", "", ""⟩ ∧
    get_sc_description [primRow] [backRow] "9" = ⟨"No Description Found", "", ""⟩ :=
  ⟨(resolve_two_tier_spec [primRow] [backRow] "7").2.1 primRow (by decide),
   (resolve_two_tier_spec [primRow] [backRow] "8").2.2.1 (by decide) backRow (by decide),
   (resolve_two_tier_spec [primRow] [backRow] "9").2.2.2 (by decide) (by decide)⟩

/-- C4: the expansion output is the concatenation, in stored registry
order, of the per-row contributions of the rows whose parent is the
root (first conjunct, with collectContribs of all-some contributions
being exactly list concatenation by the second conjunct); on the
end-to-end scenario relation the expansion of CU 10 is exactly the two
leaf rows 500 (qty 3) then 501 (qty 1), in that order. -/
theorem expand_order_concat :
    (∀ (bd : List BreakRow) (fuel : Nat) (cu : String),
      recursive_breakdown bd (fuel + 1) cu =
        if (bd.filter fun e => e.cu == some cu).isEmpty then some []
        else collectContribs ((bd.filter fun e => e.cu == some cu).map (edgeContrib bd fuel))) ∧
    (∀ l : List (List BreakRow), collectContribs (l.map some) = some l.flatten) ∧
    recursive_breakdown bd10 3 "10" =
      some [⟨some "20", none, some "500", some 3⟩, ⟨some "20", none, some "501", some 1⟩] := by
  refine ⟨fun bd fuel cu => rb_succ bd fuel cu, ?_, by decide⟩
  intro l
  induction l with
  | nil => rfl
  | cons d t ih => simp [collectContribs, ih]

/-- C5: a row with a stock code is terminal and is itself appended,
even when it also carries a child CU, whose expansion is never invoked
(the result only prepends the row to the remaining rows' output); a row
with neither stock code nor child contributes nothing; and a relation
whose only row has both a stock code and a child expands to that row
alone. -/
theorem expand_leaf_precedence :
    (∀ (bd : List BreakRow) (fuel : Nat) (e : BreakRow) (rest : List BreakRow),
       e.stockCode.isSome = true →
       collectContribs ((e :: rest).map (edgeContrib bd fuel)) =
         Option.map (fun r => e :: r) (collectContribs (rest.map (edgeContrib bd fuel)))) ∧
    (∀ (bd : List BreakRow) (fuel : Nat) (e : BreakRow) (rest : List BreakRow),
       e.stockCode = none → e.childCu = none →
       collectContribs ((e :: rest).map (edgeContrib bd fuel)) =
         collectContribs (rest.map (edgeContrib bd fuel))) ∧
    (∀ (e : BreakRow) (p : String), e.cu = some p → e.stockCode.isSome = true →
       recursive_breakdown [e] 1 p = some [e]) := by
  refine ⟨?_, ?_, ?_⟩
  · intro bd fuel e rest hs
    obtain ⟨s, hstock⟩ := Option.isSome_iff_exists.mp hs
    simp only [List.map_cons]
    rw [show edgeContrib bd fuel e = some [e] by unfold edgeContrib; rw [hstock]]
    cases h : collectContribs (rest.map (edgeContrib bd fuel)) <;> simp [collectContribs, h]
  · intro bd fuel e rest h1 h2
    simp only [List.map_cons]
    rw [show edgeContrib bd fuel e = some [] by unfold edgeContrib; rw [h1, h2]]
    cases h : collectContribs (rest.map (edgeContrib bd fuel)) <;> simp [collectContribs, h]
  · intro e p hcu hs
    obtain ⟨s, hstock⟩ := Option.isSome_iff_exists.mp hs
    have hfil : ([e].filter fun x => x.cu == some p) = [e] := by simp [hcu]
    rw [show (1 : Nat) = 0 + 1 from rfl, rb_succ, hfil]
    simp only [List.map_cons, List.map_nil]
    rw [show edgeContrib [e] 0 e = some [e] by unfold edgeContrib; rw [hstock]]
    simp [collectContribs]

/-- C5 witness: a row carrying both stock code 7 and child C is
appended as is; a row with neither is skipped; the one-row relation
with both fields expands to the row itself. -/
theorem expand_leaf_precedence_witness :
    collectContribs (([⟨some "P", some "C", some "7", none⟩] : List BreakRow).map (edgeContrib [] 0)) =
      Option.map (fun r => (⟨some "P", some "C", some "7", none⟩ : BreakRow) :: r)
        (collectContribs (([] : List BreakRow).map (edgeContrib [] 0))) ∧
    collectContribs (([⟨some "P", none, none, none⟩] : List BreakRow).map (edgeContrib [] 0)) =
      collectContribs (([] : List BreakRow).map (edgeContrib [] 0)) ∧
    recursive_breakdown [⟨some "P", some "C", some "7", none⟩] 1 "P" =
      some [⟨some "P", some "C", some "7", none⟩] :=
  ⟨expand_leaf_precedence.1 [] 0 _ [] (by decide),
   expand_leaf_precedence.2.1 [] 0 _ [] (by decide) (by decide),
   expand_leaf_precedence.2.2 _ "P" (by decide) (by decide)⟩

/-- C6 counterexample: loading a breakdowns row with parent 010 and
child 020 leaves both untouched (only the stock code loses its zeros),
so after load parent and child ids can still begin with zero,
contradicting the claim. -/
theorem load_zero_strip_cex :
    cleanBreakRow ⟨some "010", some "020", some "030", none⟩ =
      ⟨some "010", some "020", some "30", none⟩ ∧
    beginsWith0 "010" = true ∧ beginsWith0 "020" = true := by decide

/-- C6 amended: at load time leading zeros are stripped from every
breakdowns stock code and from every primary-catalog identifier (after
load none of those begins with zero); the breakdowns parent and child
identifiers instead receive only the SC000-prefix removal and may keep
leading zeros. -/
theorem load_zero_strip_amended :
    (∀ (raw : List BreakRow) (e : BreakRow), e ∈ load_breakdowns raw →
       ∀ s, e.stockCode = some s → beginsWith0 s = false) ∧
    (∀ (raw : List DescRow) (r : DescRow), r ∈ load_sc_desc raw →
       ∀ s, r.stockCode1 = some s → beginsWith0 s = false) ∧
    (∀ r : BreakRow, (cleanBreakRow r).cu = r.cu.map remove_sc000_prefix ∧
       (cleanBreakRow r).childCu = r.childCu.map remove_sc000_prefix) := by
  refine ⟨?_, ?_, fun r => ⟨rfl, rfl⟩⟩
  · intro raw e he s hs
    obtain ⟨a, _, rfl⟩ := List.mem_map.mp he
    have hs2 : a.stockCode.map lstrip0 = some s := hs
    obtain ⟨t, _, ht⟩ := Option.map_eq_some'.mp hs2
    rw [← ht]
    exact lstrip0_not_begins0 t
  · intro raw r hr s hs
    obtain ⟨a, _, rfl⟩ := List.mem_map.mp hr
    have hs2 : a.stockCode1.map lstrip0 = some s := hs
    obtain ⟨t, _, ht⟩ := Option.map_eq_some'.mp hs2
    rw [← ht]
    exact lstrip0_not_begins0 t

/-- C6 witness: loaded stock code 007 and primary id 0012 no longer
begin with zero. -/
theorem load_zero_strip_amended_witness :
    beginsWith0 "7" = false ∧ beginsWith0 "12" = false :=
  ⟨load_zero_strip_amended.1 [⟨some "A", none, some "007", none⟩]
     (cleanBreakRow ⟨some "A", none, some "007", none⟩) (by decide) "7" (by decide),
   load_zero_strip_amended.2.1 [⟨some "0012", "d", none, none⟩]
     (cleanDescRow ⟨some "0012", "d", none, none⟩) (by decide) "12" (by decide)⟩

/-- C7 counterexample: the search handler hands the query to pandas
str.contains, which interprets it as a regular expression, so the
in-fragment query consisting of a single dot selects the record abc
although no attribute contains a dot as substring; the claimed
equivalence with case-insensitive substring containment fails. -/
theorem search_substring_cex :
    search? [["abc"]] "." = some [["abc"]] ∧ specContainsCI "abc" "." = false := by decide

/-- C7 amended, over the partially embedded handler (queries outside
the literal-plus-dot fragment are unmodeled, search? returning none
for them): the empty query keeps every record having at least one
attribute (first conjunct); for a query containing no regex
metacharacter at all, where re.search is literal search, matching
coincides with case-insensitive substring containment (second
conjunct); for any in-fragment query a record is kept exactly when
some attribute matches the query under the regex reading (third
conjunct); and a lowercase query matches an uppercase occurrence
(last conjunct). -/
theorem search_regex_amended :
    (∀ l : List (List String), (∀ row ∈ l, row ≠ []) → search? l "" = some l) ∧
    (∀ (q cell : String), (q.data.all fun c => !(isRegexMeta c)) = true →
       cellMatches q cell = specContainsCI cell q) ∧
    (∀ (l : List (List String)) (q : String), inRegexFrag q = true →
       ∃ r2, search? l q = some r2 ∧
         ∀ row, (row ∈ r2 ↔ row ∈ l ∧ rowMatches q row = true)) ∧
    search? [["ABC123"]] "abc" = some [["ABC123"]] := by
  refine ⟨?_, ?_, ?_, by decide⟩
  · intro l h
    unfold search?
    rw [if_pos (by decide)]
    refine congrArg some (List.filter_eq_self.mpr ?_)
    intro row hrow
    exact rowMatches_empty_q (h row hrow)
  · intro q cell hq
    have hdot : (q.data.all fun c => !(c == '.')) = true := by
      rw [List.all_eq_true] at hq ⊢
      intro x hx
      have h1 := hq x hx
      by_cases hx2 : (x == '.') = true
      · exact absurd (by simp [isRegexMeta, hx2] : isRegexMeta x = true) (by simpa using h1)
      · simpa using hx2
    exact reSearch_no_dot q.data hdot cell.data
  · intro l q hq
    refine ⟨search l q, ?_, ?_⟩
    · unfold search?
      rw [if_pos hq]
    · intro row
      simp [search, List.mem_filter]

/-- C7 witness: the empty query keeps both records, the
metacharacter-free query bc1 agrees with the substring reading on
ABC123, and the in-fragment query b yields a result set with the
membership property. -/
theorem search_regex_amended_witness :
    search? [["x"], ["y"]] "" = some [["x"], ["y"]] ∧
    cellMatches "bc1" "ABC123" = specContainsCI "ABC123" "bc1" ∧
    ∃ r2, search? [["abc"]] "b" = some r2 ∧
      ∀ row, (row ∈ r2 ↔ row ∈ [["abc"]] ∧ rowMatches "b" row = true) :=
  ⟨search_regex_amended.1 [["x"], ["y"]] (by decide),
   search_regex_amended.2.1 "bc1" "ABC123" (by decide),
   search_regex_amended.2.2.1 [["abc"]] "b" (by decide)⟩

/-- C8 counterexample: the combined normalization applied to
SC000SC000A yields SC000A, and a second application strips a further
prefix and yields A, so normalization is not idempotent on
already-normalized identifiers. -/
theorem norm_idempotent_cex :
    normId "SC000SC000A" = "SC000A" ∧ normId "SC000A" = "A" ∧
    normId (normId "SC000SC000A") ≠ normId "SC000SC000A" := by decide

/-- C8 amended: the leading-zero strip alone is idempotent, and the
combined normalization is a no-op on an already-normalized identifier
provided that identifier does not itself still begin with zero or pass
the case-insensitive SC000 test (when it does, as for stacked prefixes
or an SC000 prefix hiding further zeros, a second application strips
more). -/
theorem norm_idempotent_amended :
    (∀ s, lstrip0 (lstrip0 s) = lstrip0 s) ∧
    (∀ s, beginsWith0 (normId s) = false → sc000Check (normId s) = false →
       normId (normId s) = normId s) := by
  refine ⟨lstrip0_idem, ?_⟩
  intro s h1 h2
  calc normId (normId s) = remove_sc000_prefix (lstrip0 (normId s)) := rfl
    _ = remove_sc000_prefix (normId s) := by rw [lstrip0_fix h1]
    _ = normId s := sc000_fix h2

/-- C8 witness: idempotence observed on 0070 and on the normalized form
of SC000B7. -/
theorem norm_idempotent_amended_witness :
    lstrip0 (lstrip0 "0070") = lstrip0 "0070" ∧ normId (normId "SC000B7") = normId "SC000B7" :=
  ⟨norm_idempotent_amended.1 "0070",
   norm_idempotent_amended.2 "SC000B7" (by decide) (by decide)⟩

/-- C9: when several catalog rows carry the same identifier the
resolver returns the attributes of the first matching row in stored
order, for the primary catalog and, on a primary miss, for the backup
catalog; the rows after the first match (the l2 tail, which may hold
any duplicates) never influence the result. -/
theorem resolve_first_match :
    (∀ (l1 l2 : List DescRow) (r : DescRow) (b : List BackupRow) (sc : String),
      (∀ r0 ∈ l1, (r0.stockCode1 == some sc) = false) → r.stockCode1 = some sc →
      get_sc_description (l1 ++ r :: l2) b sc =
        ⟨r.description, r.uoi.getD "", r.price.getD ""⟩) ∧
    (∀ (p : List DescRow) (l1 l2 : List BackupRow) (r : BackupRow) (sc : String),
      (∀ r0 ∈ p, (r0.stockCode1 == some sc) = false) →
      (∀ r0 ∈ l1, (r0.scBackup == some sc) = false) → r.scBackup = some sc →
      get_sc_description p (l1 ++ r :: l2) sc = ⟨r.backupDescrip, "", ""⟩) := by
  constructor
  · intro l1 l2 r b sc hmiss hr
    have hfind := find?_append_first (fun r0 => r0.stockCode1 == some sc) l1 l2 r hmiss
      (by simp [hr])
    simp [get_sc_description, hfind]
  · intro p l1 l2 r sc hp hmiss hr
    have hpn : p.find? (fun r0 => r0.stockCode1 == some sc) = none :=
      List.find?_eq_none.mpr fun x hx => by simp [hp x hx]
    have hfind := find?_append_first (fun r0 => r0.scBackup == some sc) l1 l2 r hmiss
      (by simp [hr])
    simp [get_sc_description, hpn, hfind]

/-- C9 witness: with two primary rows sharing id 5 the first one wins,
and likewise for two backup rows sharing id 6. -/
theorem resolve_first_match_witness :
    get_sc_description [dup1, dup2] [] "5" = ⟨"first", "", ""⟩ ∧
    get_sc_description [] [⟨some "6", "b1"⟩, ⟨some "6", "b2"⟩] "6" = ⟨"b1", "", ""⟩ :=
  ⟨resolve_first_match.1 [] [dup2] dup1 [] "5" (by simp) (by decide),
   resolve_first_match.2 [] [] [⟨some "6", "b2"⟩] ⟨some "6", "b1"⟩ "6" (by simp) (by simp)
     (by decide)⟩

/-- C10: a stock code made only of zero characters is normalized to the
empty string at load time (first and second conjuncts), and the
expansion still treats the empty-string stock code as present, so the
row appears in the output as a terminal edge (third conjunct). -/
theorem all_zero_stock_terminal :
    (∀ s : String, (s.data.all fun c => c == '0') = true → lstrip0 s = "") ∧
    cleanBreakRow ⟨some "P", none, some "000", some 2⟩ = ⟨some "P", none, some "", some 2⟩ ∧
    recursive_breakdown [⟨some "P", none, some "", some 2⟩] 1 "P" =
      some [⟨some "P", none, some "", some 2⟩] := by
  refine ⟨?_, by decide, by decide⟩
  intro s hall
  unfold lstrip0
  rw [show s.data.dropWhile (fun c => c == '0') = [] from
    List.dropWhile_eq_nil_iff.mpr fun x hx => by
      simpa using List.all_eq_true.mp hall x hx]

/-- C10 witness: the all-zero stock code 000 strips to the empty
string. -/
theorem all_zero_stock_terminal_witness : lstrip0 "000" = "" :=
  all_zero_stock_terminal.1 "000" (by decide)
